import Mathlib

/-!
# Verification of the SimpleExamples core: durable-history reconstruction and
# the multi-hop tool-calling orchestration loop

Shallow embedding of the two core source files:

* `src/persistence/openai_mem_tool_persistence.py` together with
  `src/persistence/db_accessor.py` — the persistence-backed chat client:
  flat durable rows, the history reconstructor
  (`_get_conversation_history_from_db`), and the turn driver
  (`chat_completion_with_tools`).
* `src/multi-hop/movie_recommender_agent.py` — the multi-hop movie agent:
  the pure tool implementations (`fetch_past_reviews`, `get_genre`,
  `get_movies`) and the per-batch tool-dispatch loop inside `run`.

Modelling conventions, used throughout:

* Stored row payloads are Python strings that the code probes with
  `json.loads`.  We embed the *parse outcome* as an algebraic datatype
  `Content`: `Content.text s` stands for a payload that is not a JSON object
  carrying the probed key (the `json.JSONDecodeError`/missing-key path),
  `Content.batch` for a JSON object with a `"tool_calls"` key, and
  `Content.results` for a JSON object with a `"tool_results"` key.  This
  identifies a stored string with its unique parse, which is faithful
  because `json.dumps`/`json.loads` round-trip, and a payload object never
  carries both probed keys in this code base.
* Machine integers are `Int`/`Nat` (no overflow is possible in the source:
  ids and counters are Python ints).
* Fallible code paths (Python exceptions) are `Except`.
* `datetime.now()` timestamps are abstract `Nat`s supplied by the caller.
-/

/-- One serialized tool call inside a stored assistant batch record, as
written by `chat_completion_with_tools` (fields `id`, `function_name`,
`arguments`) and read back by `_get_conversation_history_from_db`. -/
structure StoredToolCall where
  id : String
  function_name : String
  arguments : String
deriving DecidableEq, Repr

/-- One serialized tool result inside a stored tool batch record
(fields `tool_call_id`, `content`). -/
structure StoredToolResult where
  tool_call_id : String
  content : String
deriving DecidableEq, Repr

/-- Parse outcome of `json.loads` on a stored row payload, as probed by
`_get_conversation_history_from_db`:

* `text s` — the payload `s` is not a JSON object carrying the probed key
  (`json.JSONDecodeError`, or a JSON value without `"tool_calls"` /
  `"tool_results"`); the code then treats the row as plain text;
* `batch content tool_calls` — a JSON object with keys `"content"` and
  `"tool_calls"`, as produced by `json.dumps(tool_calls_data)`;
* `results tool_results` — a JSON object with key `"tool_results"`, as
  produced by `json.dumps(tool_results_data)`. -/
inductive Content where
  | text (s : String)
  | batch (content : String) (tool_calls : List StoredToolCall)
  | results (tool_results : List StoredToolResult)
deriving DecidableEq, Repr

/-- A durable-history row as seen by the reconstructor: only the fields
`entry['role']` and `entry['response']` are consulted. -/
structure Entry where
  role : String
  response : Content
deriving DecidableEq, Repr

/-- A message of the in-memory log sent to the Model Endpoint:

* `plain role content` — `{"role": role, "content": content}` where the
  content is forwarded verbatim from the store;
* `assistantCalls content tool_calls` — an assistant message carrying a
  reconstructed `tool_calls` list;
* `tool tool_call_id content` — a tool-result message. -/
inductive Msg where
  | plain (role : String) (content : Content)
  | assistantCalls (content : String) (tool_calls : List StoredToolCall)
  | tool (tool_call_id : String) (content : String)
deriving DecidableEq, Repr

/-- Expansion of a stored `tool_results` list into tool messages, one per
result, as in the inner `for tool_result in ...` loop of
`_get_conversation_history_from_db` (each message takes `tool_call_id` and
`content` from the stored record). -/
def toolMsgsOf (rs : List StoredToolResult) : List Msg :=
  rs.map (fun r => Msg.tool r.tool_call_id r.content)

/-- `_get_conversation_history_from_db` (src/persistence/
openai_mem_tool_persistence.py, lines 79–153), as a function from the flat
row sequence to the reconstructed message log.  The scan:

* an `assistant` row whose payload parses to a batch record is emitted as an
  `assistantCalls` message; if the *next* row has role `tool` it is
  consumed, and when its payload parses to a `tool_results` record each
  result is emitted as a `tool` message (a tool row that fails to parse is
  consumed and silently dropped);
* any other row is emitted verbatim as a `plain` message, except rows with
  role `tool`, which are skipped. -/
def reconstruct : List Entry → List Msg
  | [] => []
  | [e] =>
    if e.role = "assistant" then
      match e.response with
      | Content.batch c tcs => [Msg.assistantCalls c tcs]
      | _ => [Msg.plain e.role e.response]
    else if e.role = "tool" then []
    else [Msg.plain e.role e.response]
  | e :: e2 :: rest2 =>
    if e.role = "assistant" then
      match e.response with
      | Content.batch c tcs =>
        if e2.role = "tool" then
          match e2.response with
          | Content.results rs =>
              Msg.assistantCalls c tcs :: (toolMsgsOf rs ++ reconstruct rest2)
          | _ => Msg.assistantCalls c tcs :: reconstruct rest2
        else Msg.assistantCalls c tcs :: reconstruct (e2 :: rest2)
      | _ => Msg.plain e.role e.response :: reconstruct (e2 :: rest2)
    else if e.role = "tool" then reconstruct (e2 :: rest2)
    else Msg.plain e.role e.response :: reconstruct (e2 :: rest2)

/-! ### Branch equations for `reconstruct`

One lemma per branch of the scan, so later proofs can rewrite the
reconstructor without re-splitting its nested matches. -/

lemma reconstruct_nil : reconstruct [] = [] := rfl

lemma reconstruct_single_batch (e : Entry) (h1 : e.role = "assistant")
    (c : String) (tcs : List StoredToolCall) (hb : e.response = Content.batch c tcs) :
    reconstruct [e] = [Msg.assistantCalls c tcs] := by
  simp [reconstruct, h1, hb]

lemma reconstruct_single_nonbatch (e : Entry) (h1 : e.role = "assistant")
    (hb : ∀ (c : String) (tcs : List StoredToolCall), e.response = Content.batch c tcs → False) :
    reconstruct [e] = [Msg.plain e.role e.response] := by
  cases hresp : e.response with
  | batch c tcs => exact absurd hresp (fun h => hb c tcs h)
  | text s => simp [reconstruct, h1, hresp]
  | results rs => simp [reconstruct, h1, hresp]

lemma reconstruct_single_tool (e : Entry) (h1 : ¬e.role = "assistant")
    (h2 : e.role = "tool") : reconstruct [e] = [] := by
  simp [reconstruct, h1, h2]

lemma reconstruct_single_other (e : Entry) (h1 : ¬e.role = "assistant")
    (h2 : ¬e.role = "tool") : reconstruct [e] = [Msg.plain e.role e.response] := by
  simp [reconstruct, h1, h2]

lemma reconstruct_cons_batch_results (e e2 : Entry) (rest2 : List Entry)
    (h1 : e.role = "assistant") (c : String) (tcs : List StoredToolCall)
    (hb : e.response = Content.batch c tcs) (h2 : e2.role = "tool")
    (rs : List StoredToolResult) (hr : e2.response = Content.results rs) :
    reconstruct (e :: e2 :: rest2)
      = Msg.assistantCalls c tcs :: (toolMsgsOf rs ++ reconstruct rest2) := by
  simp [reconstruct, h1, hb, h2, hr]

lemma reconstruct_cons_batch_badtool (e e2 : Entry) (rest2 : List Entry)
    (h1 : e.role = "assistant") (c : String) (tcs : List StoredToolCall)
    (hb : e.response = Content.batch c tcs) (h2 : e2.role = "tool")
    (hr : ∀ (rs : List StoredToolResult), e2.response = Content.results rs → False) :
    reconstruct (e :: e2 :: rest2)
      = Msg.assistantCalls c tcs :: reconstruct rest2 := by
  cases hresp : e2.response with
  | results rs => exact absurd hresp (fun h => hr rs h)
  | text s => simp [reconstruct, h1, hb, h2, hresp]
  | batch c2 tcs2 => simp [reconstruct, h1, hb, h2, hresp]

lemma reconstruct_cons_batch_nottool (e e2 : Entry) (rest2 : List Entry)
    (h1 : e.role = "assistant") (c : String) (tcs : List StoredToolCall)
    (hb : e.response = Content.batch c tcs) (h2 : ¬e2.role = "tool") :
    reconstruct (e :: e2 :: rest2)
      = Msg.assistantCalls c tcs :: reconstruct (e2 :: rest2) := by
  simp [reconstruct, h1, hb, h2]

lemma reconstruct_cons_nonbatch (e e2 : Entry) (rest2 : List Entry)
    (h1 : e.role = "assistant")
    (hb : ∀ (c : String) (tcs : List StoredToolCall), e.response = Content.batch c tcs → False) :
    reconstruct (e :: e2 :: rest2)
      = Msg.plain e.role e.response :: reconstruct (e2 :: rest2) := by
  cases hresp : e.response with
  | batch c tcs => exact absurd hresp (fun h => hb c tcs h)
  | text s => simp [reconstruct, h1, hresp]
  | results rs => simp [reconstruct, h1, hresp]

lemma reconstruct_cons_tool (e e2 : Entry) (rest2 : List Entry)
    (h1 : ¬e.role = "assistant") (h2 : e.role = "tool") :
    reconstruct (e :: e2 :: rest2) = reconstruct (e2 :: rest2) := by
  simp [reconstruct, h1, h2]

lemma reconstruct_cons_other (e e2 : Entry) (rest2 : List Entry)
    (h1 : ¬e.role = "assistant") (h2 : ¬e.role = "tool") :
    reconstruct (e :: e2 :: rest2)
      = Msg.plain e.role e.response :: reconstruct (e2 :: rest2) := by
  simp [reconstruct, h1, h2]

/-- Recognizer for `tool`-role messages of the reconstructed log. -/
def isToolMsg : Msg → Bool
  | Msg.tool _ _ => true
  | _ => false

/-- Recognizer for assistant messages that carry a `tool_calls` list. -/
def isCallsMsg : Msg → Bool
  | Msg.assistantCalls _ _ => true
  | _ => false

/-- Protocol acceptability of one adjacency in the reconstructed log
(spec invariant I3): a `tool` message may only directly follow another
`tool` message or an assistant tool-calls message. -/
def okPair (a b : Msg) : Prop :=
  isToolMsg b = true → (isToolMsg a = true ∨ isCallsMsg a = true)

lemma reconstruct_head_not_tool :
    ∀ (db : List Entry) (m : Msg),
      (reconstruct db).head? = some m → isToolMsg m = false := by
  intro db
  induction db using reconstruct.induct with
  | case1 => intro m h; simp [reconstruct_nil] at h
  | case2 e h1 c tcs hb =>
    intro m h
    rw [reconstruct_single_batch e h1 c tcs hb] at h
    simp at h
    simp [← h, isToolMsg]
  | case3 e h1 hb =>
    intro m h
    rw [reconstruct_single_nonbatch e h1 hb] at h
    simp at h
    simp [← h, isToolMsg]
  | case4 e h1 h2 =>
    intro m h
    rw [reconstruct_single_tool e h1 h2] at h
    simp at h
  | case5 e h1 h2 =>
    intro m h
    rw [reconstruct_single_other e h1 h2] at h
    simp at h
    simp [← h, isToolMsg]
  | case6 e e2 rest2 h1 c tcs hb h2 rs hr ih =>
    intro m h
    rw [reconstruct_cons_batch_results e e2 rest2 h1 c tcs hb h2 rs hr] at h
    simp at h
    simp [← h, isToolMsg]
  | case7 e e2 rest2 h1 c tcs hb h2 hr ih =>
    intro m h
    rw [reconstruct_cons_batch_badtool e e2 rest2 h1 c tcs hb h2 hr] at h
    simp at h
    simp [← h, isToolMsg]
  | case8 e e2 rest2 h1 c tcs hb h2 ih =>
    intro m h
    rw [reconstruct_cons_batch_nottool e e2 rest2 h1 c tcs hb h2] at h
    simp at h
    simp [← h, isToolMsg]
  | case9 e e2 rest2 h1 hb ih =>
    intro m h
    rw [reconstruct_cons_nonbatch e e2 rest2 h1 hb] at h
    simp at h
    simp [← h, isToolMsg]
  | case10 e e2 rest2 h1 h2 ih =>
    intro m h
    rw [reconstruct_cons_tool e e2 rest2 h1 h2] at h
    exact ih m h
  | case11 e e2 rest2 h1 h2 ih =>
    intro m h
    rw [reconstruct_cons_other e e2 rest2 h1 h2] at h
    simp at h
    simp [← h, isToolMsg]

lemma chain'_toolBlock (a : Msg) (h : isCallsMsg a = true ∨ isToolMsg a = true)
    (rs : List StoredToolResult) (tail : List Msg)
    (htail : List.Chain' okPair tail)
    (hhead : ∀ m ∈ tail.head?, isToolMsg m = false) :
    List.Chain' okPair (a :: (toolMsgsOf rs ++ tail)) := by
  induction rs generalizing a with
  | nil =>
    simp only [toolMsgsOf, List.map_nil, List.nil_append]
    rw [List.chain'_cons']
    refine ⟨?_, htail⟩
    intro m hm hTool
    exact absurd hTool (by simp [hhead m hm])
  | cons r rs ih =>
    simp only [toolMsgsOf, List.map_cons, List.cons_append] at *
    rw [List.chain'_cons]
    exact ⟨fun _ => h.symm, ih (Msg.tool r.tool_call_id r.content) (Or.inr rfl)⟩

lemma reconstruct_chain' (db : List Entry) :
    List.Chain' okPair (reconstruct db) := by
  induction db using reconstruct.induct with
  | case1 => simp [reconstruct_nil]
  | case2 e h1 c tcs hb =>
    rw [reconstruct_single_batch e h1 c tcs hb]; simp
  | case3 e h1 hb =>
    rw [reconstruct_single_nonbatch e h1 hb]; simp
  | case4 e h1 h2 =>
    rw [reconstruct_single_tool e h1 h2]; simp
  | case5 e h1 h2 =>
    rw [reconstruct_single_other e h1 h2]; simp
  | case6 e e2 rest2 h1 c tcs hb h2 rs hr ih =>
    rw [reconstruct_cons_batch_results e e2 rest2 h1 c tcs hb h2 rs hr]
    exact chain'_toolBlock (Msg.assistantCalls c tcs) (Or.inl rfl) rs _ ih
      (fun m hm => reconstruct_head_not_tool rest2 m hm)
  | case7 e e2 rest2 h1 c tcs hb h2 hr ih =>
    rw [reconstruct_cons_batch_badtool e e2 rest2 h1 c tcs hb h2 hr]
    rw [List.chain'_cons']
    exact ⟨fun m _ _ => Or.inr rfl, ih⟩
  | case8 e e2 rest2 h1 c tcs hb h2 ih =>
    rw [reconstruct_cons_batch_nottool e e2 rest2 h1 c tcs hb h2]
    rw [List.chain'_cons']
    exact ⟨fun m _ _ => Or.inr rfl, ih⟩
  | case9 e e2 rest2 h1 hb ih =>
    rw [reconstruct_cons_nonbatch e e2 rest2 h1 hb]
    rw [List.chain'_cons']
    refine ⟨?_, ih⟩
    intro m hm hTool
    exact absurd hTool (by simp [reconstruct_head_not_tool _ m hm])
  | case10 e e2 rest2 h1 h2 ih =>
    rw [reconstruct_cons_tool e e2 rest2 h1 h2]
    exact ih
  | case11 e e2 rest2 h1 h2 ih =>
    rw [reconstruct_cons_other e e2 rest2 h1 h2]
    rw [List.chain'_cons']
    refine ⟨?_, ih⟩
    intro m hm hTool
    exact absurd hTool (by simp [reconstruct_head_not_tool _ m hm])

/-- C1: the reconstruction of a store holding a single assistant tool-call
batch row with no following tool-results row.  The code emits the assistant
message with its non-empty `tool_calls` list unpaired (no tool message
follows), instead of dropping the dangling group as the specification's
pairing property P1 and Scenario C require. -/
theorem c1_dangling_batch_emitted :
    reconstruct [⟨"assistant", Content.batch "" [⟨"call_1", "get_weather", "city: Paris"⟩]⟩]
      = [Msg.assistantCalls "" [⟨"call_1", "get_weather", "city: Paris"⟩]] := by
  rfl

/-! ### Locality of the scan

The scan consumes one or two rows at a time, so reconstruction distributes
over an append as long as the second part does not start with a `tool` row
(which the tail of the first part could otherwise capture). -/

lemma reconstruct_cons_plain' (e : Entry) (l : List Entry)
    (h1 : ¬e.role = "assistant") (h2 : ¬e.role = "tool") :
    reconstruct (e :: l) = Msg.plain e.role e.response :: reconstruct l := by
  cases l with
  | nil => rw [reconstruct_single_other e h1 h2, reconstruct_nil]
  | cons e2 rest2 => exact reconstruct_cons_other e e2 rest2 h1 h2

lemma reconstruct_cons_toolskip (e : Entry) (l : List Entry)
    (h1 : ¬e.role = "assistant") (h2 : e.role = "tool") :
    reconstruct (e :: l) = reconstruct l := by
  cases l with
  | nil => rw [reconstruct_single_tool e h1 h2, reconstruct_nil]
  | cons e2 rest2 => exact reconstruct_cons_tool e e2 rest2 h1 h2

lemma reconstruct_dropToolRows (rows l : List Entry)
    (h : ∀ r ∈ rows, r.role = "tool") :
    reconstruct (rows ++ l) = reconstruct l := by
  induction rows with
  | nil => simp
  | cons r rows ih =>
    have hr : r.role = "tool" := h r (by simp)
    have hna : ¬r.role = "assistant" := by rw [hr]; decide
    rw [List.cons_append, reconstruct_cons_toolskip r (rows ++ l) hna hr]
    exact ih (fun r' hr' => h r' (by simp [hr']))

lemma reconstruct_append (T : List Entry) (hT : ∀ e ∈ T.head?, ¬e.role = "tool") :
    ∀ S : List Entry, reconstruct (S ++ T) = reconstruct S ++ reconstruct T := by
  intro S
  induction S using reconstruct.induct with
  | case1 => simp [reconstruct_nil]
  | case2 e h1 c tcs hb =>
    cases T with
    | nil => simp [reconstruct_nil]
    | cons t T' =>
      have ht : ¬t.role = "tool" := hT t (by simp)
      rw [List.singleton_append, reconstruct_cons_batch_nottool e t T' h1 c tcs hb ht,
        reconstruct_single_batch e h1 c tcs hb, List.singleton_append]
  | case3 e h1 hb =>
    cases T with
    | nil => simp [reconstruct_nil]
    | cons t T' =>
      rw [List.singleton_append, reconstruct_cons_nonbatch e t T' h1 hb,
        reconstruct_single_nonbatch e h1 hb, List.singleton_append]
  | case4 e h1 h2 =>
    cases T with
    | nil => simp [reconstruct_nil]
    | cons t T' =>
      rw [List.singleton_append, reconstruct_cons_tool e t T' h1 h2,
        reconstruct_single_tool e h1 h2, List.nil_append]
  | case5 e h1 h2 =>
    cases T with
    | nil => simp [reconstruct_nil]
    | cons t T' =>
      rw [List.singleton_append, reconstruct_cons_other e t T' h1 h2,
        reconstruct_single_other e h1 h2, List.singleton_append]
  | case6 e e2 rest2 h1 c tcs hb h2 rs hr ih =>
    rw [show (e :: e2 :: rest2) ++ T = e :: e2 :: (rest2 ++ T) by simp,
      reconstruct_cons_batch_results e e2 (rest2 ++ T) h1 c tcs hb h2 rs hr,
      reconstruct_cons_batch_results e e2 rest2 h1 c tcs hb h2 rs hr, ih]
    simp
  | case7 e e2 rest2 h1 c tcs hb h2 hr ih =>
    rw [show (e :: e2 :: rest2) ++ T = e :: e2 :: (rest2 ++ T) by simp,
      reconstruct_cons_batch_badtool e e2 (rest2 ++ T) h1 c tcs hb h2 hr,
      reconstruct_cons_batch_badtool e e2 rest2 h1 c tcs hb h2 hr, ih]
    simp
  | case8 e e2 rest2 h1 c tcs hb h2 ih =>
    rw [show (e :: e2 :: rest2) ++ T = e :: ((e2 :: rest2) ++ T) by simp,
      show e :: ((e2 :: rest2) ++ T) = e :: e2 :: (rest2 ++ T) by simp,
      reconstruct_cons_batch_nottool e e2 (rest2 ++ T) h1 c tcs hb h2,
      reconstruct_cons_batch_nottool e e2 rest2 h1 c tcs hb h2]
    rw [show e2 :: (rest2 ++ T) = (e2 :: rest2) ++ T by simp, ih]
    simp
  | case9 e e2 rest2 h1 hb ih =>
    rw [show (e :: e2 :: rest2) ++ T = e :: e2 :: (rest2 ++ T) by simp,
      reconstruct_cons_nonbatch e e2 (rest2 ++ T) h1 hb,
      reconstruct_cons_nonbatch e e2 rest2 h1 hb]
    rw [show e2 :: (rest2 ++ T) = (e2 :: rest2) ++ T by simp, ih]
    simp
  | case10 e e2 rest2 h1 h2 ih =>
    rw [show (e :: e2 :: rest2) ++ T = e :: e2 :: (rest2 ++ T) by simp,
      reconstruct_cons_tool e e2 (rest2 ++ T) h1 h2,
      reconstruct_cons_tool e e2 rest2 h1 h2]
    rw [show e2 :: (rest2 ++ T) = (e2 :: rest2) ++ T by simp, ih]
  | case11 e e2 rest2 h1 h2 ih =>
    rw [show (e :: e2 :: rest2) ++ T = e :: e2 :: (rest2 ++ T) by simp,
      reconstruct_cons_other e e2 (rest2 ++ T) h1 h2,
      reconstruct_cons_other e e2 rest2 h1 h2]
    rw [show e2 :: (rest2 ++ T) = (e2 :: rest2) ++ T by simp, ih]
    simp

lemma reconstruct_cons_nonbatch' (e : Entry) (l : List Entry)
    (h1 : e.role = "assistant")
    (hb : ∀ (c : String) (tcs : List StoredToolCall), e.response = Content.batch c tcs → False) :
    reconstruct (e :: l) = Msg.plain e.role e.response :: reconstruct l := by
  cases l with
  | nil => rw [reconstruct_single_nonbatch e h1 hb, reconstruct_nil]
  | cons e2 rest2 => exact reconstruct_cons_nonbatch e e2 rest2 h1 hb

/-- The store with its orphaned tool rows deleted.  A `tool`-role row is
*consumed* (non-orphaned) exactly when it directly follows an assistant
row whose payload is a tool-call batch record — the one row the scan's
lookahead takes; every other `tool`-role row is an orphan.  This
definition keeps the non-orphan rows, in order, and drops the orphans. -/
def dropOrphanToolRows : List Entry → List Entry
  | [] => []
  | [e] => if e.role = "tool" then [] else [e]
  | e :: e2 :: rest2 =>
    if e.role = "assistant" then
      match e.response with
      | Content.batch _ _ =>
        if e2.role = "tool" then e :: e2 :: dropOrphanToolRows rest2
        else e :: dropOrphanToolRows (e2 :: rest2)
      | _ => e :: dropOrphanToolRows (e2 :: rest2)
    else if e.role = "tool" then dropOrphanToolRows (e2 :: rest2)
    else e :: dropOrphanToolRows (e2 :: rest2)

lemma dropOrphanToolRows_cons_not_tool (e : Entry) (l : List Entry)
    (h : ¬e.role = "tool") :
    ∃ l', dropOrphanToolRows (e :: l) = e :: l' := by
  cases l with
  | nil => exact ⟨[], by simp [dropOrphanToolRows, h]⟩
  | cons e2 rest2 =>
    by_cases ha : e.role = "assistant"
    · cases hresp : e.response with
      | batch c tcs =>
        by_cases h2 : e2.role = "tool"
        · exact ⟨e2 :: dropOrphanToolRows rest2,
            by simp [dropOrphanToolRows, ha, hresp, h2]⟩
        · exact ⟨dropOrphanToolRows (e2 :: rest2),
            by simp [dropOrphanToolRows, ha, hresp, h2]⟩
      | text str => exact ⟨dropOrphanToolRows (e2 :: rest2),
          by simp [dropOrphanToolRows, ha, hresp]⟩
      | results rs => exact ⟨dropOrphanToolRows (e2 :: rest2),
          by simp [dropOrphanToolRows, ha, hresp]⟩
    · exact ⟨dropOrphanToolRows (e2 :: rest2),
        by simp [dropOrphanToolRows, ha, h]⟩

lemma reconstruct_dropOrphanToolRows :
    ∀ db : List Entry, reconstruct (dropOrphanToolRows db) = reconstruct db := by
  intro db
  induction db using reconstruct.induct with
  | case1 => rfl
  | case2 e h1 c tcs hb =>
    have hd : dropOrphanToolRows [e] = [e] := by
      simp [dropOrphanToolRows, show ¬e.role = "tool" by rw [h1]; decide]
    rw [hd]
  | case3 e h1 hb =>
    have hd : dropOrphanToolRows [e] = [e] := by
      simp [dropOrphanToolRows, show ¬e.role = "tool" by rw [h1]; decide]
    rw [hd]
  | case4 e h1 h2 =>
    have hd : dropOrphanToolRows [e] = [] := by simp [dropOrphanToolRows, h2]
    rw [hd, reconstruct_nil, reconstruct_single_tool e h1 h2]
  | case5 e h1 h2 =>
    have hd : dropOrphanToolRows [e] = [e] := by simp [dropOrphanToolRows, h2]
    rw [hd]
  | case6 e e2 rest2 h1 c tcs hb h2 rs hr ih =>
    have hd : dropOrphanToolRows (e :: e2 :: rest2)
        = e :: e2 :: dropOrphanToolRows rest2 := by
      simp [dropOrphanToolRows, h1, hb, h2]
    rw [hd, reconstruct_cons_batch_results e e2 _ h1 c tcs hb h2 rs hr, ih,
      reconstruct_cons_batch_results e e2 rest2 h1 c tcs hb h2 rs hr]
  | case7 e e2 rest2 h1 c tcs hb h2 hr ih =>
    have hd : dropOrphanToolRows (e :: e2 :: rest2)
        = e :: e2 :: dropOrphanToolRows rest2 := by
      simp [dropOrphanToolRows, h1, hb, h2]
    rw [hd, reconstruct_cons_batch_badtool e e2 _ h1 c tcs hb h2 hr, ih,
      reconstruct_cons_batch_badtool e e2 rest2 h1 c tcs hb h2 hr]
  | case8 e e2 rest2 h1 c tcs hb h2 ih =>
    have hd : dropOrphanToolRows (e :: e2 :: rest2)
        = e :: dropOrphanToolRows (e2 :: rest2) := by
      simp [dropOrphanToolRows, h1, hb, h2]
    obtain ⟨l', hl'⟩ := dropOrphanToolRows_cons_not_tool e2 rest2 h2
    rw [hd, hl', reconstruct_cons_batch_nottool e e2 l' h1 c tcs hb h2, ← hl', ih,
      reconstruct_cons_batch_nottool e e2 rest2 h1 c tcs hb h2]
  | case9 e e2 rest2 h1 hb ih =>
    have hd : dropOrphanToolRows (e :: e2 :: rest2)
        = e :: dropOrphanToolRows (e2 :: rest2) := by
      cases hresp : e.response with
      | batch c tcs => exact absurd hresp (fun hh => hb c tcs hh)
      | text str => simp [dropOrphanToolRows, h1, hresp]
      | results rs => simp [dropOrphanToolRows, h1, hresp]
    rw [hd, reconstruct_cons_nonbatch' e _ h1 hb, ih,
      reconstruct_cons_nonbatch e e2 rest2 h1 hb]
  | case10 e e2 rest2 h1 h2 ih =>
    have hd : dropOrphanToolRows (e :: e2 :: rest2)
        = dropOrphanToolRows (e2 :: rest2) := by
      simp [dropOrphanToolRows, h1, h2]
    rw [hd, ih, reconstruct_cons_tool e e2 rest2 h1 h2]
  | case11 e e2 rest2 h1 h2 ih =>
    have hd : dropOrphanToolRows (e :: e2 :: rest2)
        = e :: dropOrphanToolRows (e2 :: rest2) := by
      simp [dropOrphanToolRows, h1, h2]
    rw [hd, reconstruct_cons_plain' e _ h1 h2, ih,
      reconstruct_cons_other e e2 rest2 h1 h2]

lemma reconstruct_plain_role :
    ∀ (db : List Entry) (r : String) (c : Content),
      Msg.plain r c ∈ reconstruct db → ¬r = "tool" := by
  intro db
  induction db using reconstruct.induct with
  | case1 => intro r c hm; simp [reconstruct_nil] at hm
  | case2 e h1 c0 tcs hb =>
    intro r c hm
    rw [reconstruct_single_batch e h1 c0 tcs hb] at hm
    simp at hm
  | case3 e h1 hb =>
    intro r c hm
    rw [reconstruct_single_nonbatch e h1 hb] at hm
    simp at hm
    rw [hm.1, h1]
    decide
  | case4 e h1 h2 =>
    intro r c hm
    rw [reconstruct_single_tool e h1 h2] at hm
    simp at hm
  | case5 e h1 h2 =>
    intro r c hm
    rw [reconstruct_single_other e h1 h2] at hm
    simp at hm
    rw [hm.1]
    exact h2
  | case6 e e2 rest2 h1 c0 tcs hb h2 rs hr ih =>
    intro r c hm
    rw [reconstruct_cons_batch_results e e2 rest2 h1 c0 tcs hb h2 rs hr] at hm
    simp [toolMsgsOf] at hm
    exact ih r c hm
  | case7 e e2 rest2 h1 c0 tcs hb h2 hr ih =>
    intro r c hm
    rw [reconstruct_cons_batch_badtool e e2 rest2 h1 c0 tcs hb h2 hr] at hm
    simp at hm
    exact ih r c hm
  | case8 e e2 rest2 h1 c0 tcs hb h2 ih =>
    intro r c hm
    rw [reconstruct_cons_batch_nottool e e2 rest2 h1 c0 tcs hb h2] at hm
    simp at hm
    exact ih r c hm
  | case9 e e2 rest2 h1 hb ih =>
    intro r c hm
    rw [reconstruct_cons_nonbatch e e2 rest2 h1 hb] at hm
    simp at hm
    rcases hm with ⟨hr, _⟩ | hm
    · rw [hr, h1]; decide
    · exact ih r c hm
  | case10 e e2 rest2 h1 h2 ih =>
    intro r c hm
    rw [reconstruct_cons_tool e e2 rest2 h1 h2] at hm
    exact ih r c hm
  | case11 e e2 rest2 h1 h2 ih =>
    intro r c hm
    rw [reconstruct_cons_other e e2 rest2 h1 h2] at hm
    simp at hm
    rcases hm with ⟨hr, _⟩ | hm
    · rw [hr]; exact h2
    · exact ih r c hm

/-- C5: orphaned `tool` rows are never forwarded.  For every stored row
sequence: (1) deleting the orphaned tool rows — the `tool`-role rows not
consumed by a batch expansion — leaves the reconstructed log unchanged, so
an orphan contributes no message at all to the output; (2) no message of
the output is a verbatim-forwarded entry with role `tool`; (3)–(4) the
output never starts with a `tool` message and every `tool` message
directly follows another `tool` message or an assistant tool-calls
message, i.e. `tool` messages occur only inside batch expansions. -/
theorem c5_no_orphan_tool_messages (db : List Entry) :
    reconstruct (dropOrphanToolRows db) = reconstruct db ∧
      (∀ (r : String) (c : Content), Msg.plain r c ∈ reconstruct db → ¬r = "tool") ∧
      (∀ m ∈ (reconstruct db).head?, isToolMsg m = false) ∧
      List.Chain' okPair (reconstruct db) :=
  ⟨reconstruct_dropOrphanToolRows db, reconstruct_plain_role db,
   fun m hm => reconstruct_head_not_tool db m hm, reconstruct_chain' db⟩

theorem c5_no_orphan_tool_messages_witness :
    reconstruct
        (dropOrphanToolRows
          [⟨"tool", Content.text "Weather tool error for Paris"⟩,
           ⟨"user", Content.text "hi"⟩])
      = reconstruct
          [⟨"tool", Content.text "Weather tool error for Paris"⟩,
           ⟨"user", Content.text "hi"⟩] ∧
    ¬"user" = "tool" := by
  have h := c5_no_orphan_tool_messages
    [⟨"tool", Content.text "Weather tool error for Paris"⟩,
     ⟨"user", Content.text "hi"⟩]
  exact ⟨h.1, h.2.1 "user" (Content.text "hi") (by decide)⟩

/-! ### The persistence-backed chat turn (`chat_completion_with_tools`)

`chat_completion_with_tools` (src/persistence/openai_mem_tool_persistence.py,
lines 155–287), one user turn.  Collaborators are parameters:

* `endpoint` models `self.client.chat.completions.create` (both calls of the
  turn); a raised exception is `.error` carrying `str(e)`;
* `gw` models `self.get_weather`: it yields the returned content string and,
  when the fetch raised, the extra `tool`-role error row that `get_weather`
  inserts into the database before returning;
* `parseCity` models `json.loads(tool_call.function.arguments).get("city",
  "Unknown")` (the model assumes the arguments string parses; a malformed
  arguments string would instead route through the turn's generic `except`).

Python `str.strip()` is modelled by `String.trim` (both drop leading and
trailing ASCII whitespace). -/

/-- The message returned by one `chat.completions.create` call:
`response_message.content` (possibly `None`) and
`response_message.tool_calls` (empty list for the falsy `None`). -/
structure RespToolCall where
  id : String
  name : String
  arguments : String
deriving DecidableEq, Repr

structure RespMsg where
  content : Option String
  tool_calls : List RespToolCall
deriving DecidableEq, Repr

/-- Outcome of `self.get_weather(city)`: the string it returns, plus the
`tool`-role error row it inserts into the database when the fetch raised
(`self.db.insert_conversation("tool", f"Weather tool error for ...")`). -/
structure GWResult where
  content : String
  errorRow : Option String
deriving DecidableEq, Repr

/-- `tool_calls_data["tool_calls"]`: each call serialized with `id`,
`function_name` and `arguments`. -/
def storedCallsOf (tcs : List RespToolCall) : List StoredToolCall :=
  tcs.map (fun tc => ⟨tc.id, tc.name, tc.arguments⟩)

/-- The `tool_results` list collected by the per-call loop: one result per
call whose function name is `get_weather` (calls with any other name are
silently skipped by the loop). -/
def weatherResultsOf (gw : String → GWResult) (parseCity : String → String)
    (tcs : List RespToolCall) : List StoredToolResult :=
  tcs.filterMap (fun tc =>
    if tc.name = "get_weather"
    then some ⟨tc.id, (gw (parseCity tc.arguments)).content⟩
    else none)

/-- The `tool`-role error rows inserted by failing `get_weather` executions,
in call order (they are written during the loop, before the batch row). -/
def weatherErrorRowsOf (gw : String → GWResult) (parseCity : String → String)
    (tcs : List RespToolCall) : List Entry :=
  tcs.filterMap (fun tc =>
    if tc.name = "get_weather"
    then ((gw (parseCity tc.arguments)).errorRow).map
      (fun s => Entry.mk "tool" (Content.text s))
    else none)

/-- The message list built before the first endpoint call: optional system
message, reconstructed history, then the new user message. -/
def buildMessages (store : List Entry) (userMsg : String)
    (sysMsg : Option String) : List Msg :=
  (match sysMsg with
   | some s => [Msg.plain "system" (Content.text s)]
   | none => []) ++ reconstruct store ++ [Msg.plain "user" (Content.text userMsg)]

/-- `error_msg = f"Error making API call: {str(e)}"` from the turn's
`except` handler. -/
def apiErrorMsg (e : String) : String := "Error making API call: " ++ e

/-- The exception text when `response_message.content` is `None` and the
code calls `.strip()` on it (`AttributeError`, caught by the same
`except`). -/
def noneContentError : String :=
  "AttributeError: NoneType object has no attribute strip"

/-- The assistant message and tool messages appended to the in-memory log
for a tool-calling hop (lines 201–231): the grouped assistant tool-calls
message followed by one tool message per collected result. -/
def turnToolMessages (gw : String → GWResult) (parseCity : String → String)
    (resp : RespMsg) : List Msg :=
  Msg.assistantCalls (resp.content.getD "") (storedCallsOf resp.tool_calls)
    :: toolMsgsOf (weatherResultsOf gw parseCity resp.tool_calls)

/-- `chat_completion_with_tools`, returning the string handed back to the
caller and the durable store after the turn.  Paths:

* first endpoint call raises → error string returned, a `system` error row
  appended (after the user row, which was written before the call);
* no tool calls → `content.strip()` stored and returned (a `None` content
  routes through the `except` handler);
* tool calls → weather error rows (if any), the batch row, the results row
  are appended; the second endpoint call produces the final answer, stored
  and returned; its failure routes through the same `except` handler. -/
def chatCompletionWithTools (endpoint : List Msg → Except String RespMsg)
    (gw : String → GWResult) (parseCity : String → String)
    (store : List Entry) (userMsg : String) (sysMsg : Option String) :
    String × List Entry :=
  let messages := buildMessages store userMsg sysMsg
  let store1 := store ++ [⟨"user", Content.text userMsg⟩]
  match endpoint messages with
  | .error e =>
    (apiErrorMsg e,
     store1 ++ [⟨"system", Content.text ("Error: " ++ apiErrorMsg e)⟩])
  | .ok resp =>
    if resp.tool_calls = [] then
      match resp.content with
      | some s => (s.trim, store1 ++ [⟨"assistant", Content.text s.trim⟩])
      | none =>
        (apiErrorMsg noneContentError,
         store1 ++ [⟨"system", Content.text ("Error: " ++ apiErrorMsg noneContentError)⟩])
    else
      let results := weatherResultsOf gw parseCity resp.tool_calls
      let messages2 := messages ++ turnToolMessages gw parseCity resp
      let store2 := store1 ++ weatherErrorRowsOf gw parseCity resp.tool_calls
        ++ [⟨"assistant", Content.batch (resp.content.getD "") (storedCallsOf resp.tool_calls)⟩,
            ⟨"tool", Content.results results⟩]
      match endpoint messages2 with
      | .error e =>
        (apiErrorMsg e,
         store2 ++ [⟨"system", Content.text ("Error: " ++ apiErrorMsg e)⟩])
      | .ok fin =>
        match fin.content with
        | some s => (s.trim, store2 ++ [⟨"assistant", Content.text s.trim⟩])
        | none =>
          (apiErrorMsg noneContentError,
           store2 ++ [⟨"system", Content.text ("Error: " ++ apiErrorMsg noneContentError)⟩])

lemma weatherErrorRowsOf_roles (gw : String → GWResult)
    (parseCity : String → String) (tcs : List RespToolCall) :
    ∀ r ∈ weatherErrorRowsOf gw parseCity tcs, r.role = "tool" := by
  intro r hr
  simp only [weatherErrorRowsOf, List.mem_filterMap] at hr
  obtain ⟨tc, _, htc⟩ := hr
  split at htc
  · cases hgw : (gw (parseCity tc.arguments)).errorRow with
    | none => rw [hgw] at htc; simp at htc
    | some s => rw [hgw] at htc; simp at htc; simp [← htc]
  · simp at htc

/-- C2: round-trip for one persisted user turn.  Whatever messages the turn
put into the in-memory log — the user message, the grouped assistant
tool-calls message with one tool message per collected result, and the
final assistant answer (or just user message and answer when the model
called no tool) — reconstructing the durable store after the turn yields
the reconstruction of the prior store followed by exactly those messages,
with equal roles, contents and tool-call ids/names/arguments; the weather
error rows written by failing tool executions are orphans and are dropped
by the reconstruction rules. -/
theorem c2_round_trip (endpoint : List Msg → Except String RespMsg)
    (gw : String → GWResult) (parseCity : String → String)
    (store : List Entry) (userMsg : String) (sysMsg : Option String) :
    (∀ (resp fin : RespMsg) (s : String),
       endpoint (buildMessages store userMsg sysMsg) = .ok resp →
       resp.tool_calls ≠ [] →
       endpoint (buildMessages store userMsg sysMsg
         ++ turnToolMessages gw parseCity resp) = .ok fin →
       fin.content = some s →
       reconstruct (chatCompletionWithTools endpoint gw parseCity store userMsg sysMsg).2
         = reconstruct store
           ++ Msg.plain "user" (Content.text userMsg)
              :: (turnToolMessages gw parseCity resp
                  ++ [Msg.plain "assistant" (Content.text s.trim)]))
    ∧
    (∀ (resp : RespMsg) (s : String),
       endpoint (buildMessages store userMsg sysMsg) = .ok resp →
       resp.tool_calls = [] →
       resp.content = some s →
       reconstruct (chatCompletionWithTools endpoint gw parseCity store userMsg sysMsg).2
         = reconstruct store
           ++ [Msg.plain "user" (Content.text userMsg),
               Msg.plain "assistant" (Content.text s.trim)]) := by
  constructor
  · intro resp fin s h1 hne h3 h4
    simp only [chatCompletionWithTools, h1]
    rw [if_neg hne]
    simp only [h3, h4]
    have hstore :
        (store ++ [⟨"user", Content.text userMsg⟩])
            ++ weatherErrorRowsOf gw parseCity resp.tool_calls
            ++ [⟨"assistant", Content.batch (resp.content.getD "") (storedCallsOf resp.tool_calls)⟩,
                ⟨"tool", Content.results (weatherResultsOf gw parseCity resp.tool_calls)⟩]
            ++ [⟨"assistant", Content.text s.trim⟩]
          = store ++ ((⟨"user", Content.text userMsg⟩ : Entry)
              :: (weatherErrorRowsOf gw parseCity resp.tool_calls
                  ++ [⟨"assistant", Content.batch (resp.content.getD "") (storedCallsOf resp.tool_calls)⟩,
                      ⟨"tool", Content.results (weatherResultsOf gw parseCity resp.tool_calls)⟩,
                      ⟨"assistant", Content.text s.trim⟩])) := by
      simp
    rw [hstore]
    rw [reconstruct_append _ (by intro x hx; simp at hx; subst hx; simp) store]
    congr 1
    rw [reconstruct_cons_plain' _ _ (by simp) (by simp)]
    rw [reconstruct_dropToolRows _ _ (weatherErrorRowsOf_roles gw parseCity resp.tool_calls)]
    rw [reconstruct_cons_batch_results _ _ _ rfl _ _ rfl rfl _ rfl]
    rw [reconstruct_single_nonbatch _ rfl (by intro c tcs h; simp at h)]
    simp [turnToolMessages]
  · intro resp s h1 hz h2
    simp only [chatCompletionWithTools, h1]
    rw [if_pos hz]
    simp only [h2]
    have hstore :
        (store ++ [⟨"user", Content.text userMsg⟩]) ++ [⟨"assistant", Content.text s.trim⟩]
          = store ++ ((⟨"user", Content.text userMsg⟩ : Entry)
              :: [⟨"assistant", Content.text s.trim⟩]) := by simp
    rw [hstore]
    rw [reconstruct_append _ (by intro x hx; simp at hx; subst hx; simp) store]
    rw [reconstruct_cons_plain' (⟨"user", Content.text userMsg⟩ : Entry)
      [⟨"assistant", Content.text s.trim⟩] (by simp) (by simp)]
    rw [reconstruct_single_nonbatch (⟨"assistant", Content.text s.trim⟩ : Entry) rfl
      (by intro c tcs h; simp at h)]

/-- Concrete Model Endpoint for exercising the round-trip: the first call of
the turn (two messages: system + user) answers with one `get_weather` tool
call, the follow-up call answers with final text. -/
def epW : List Msg → Except String RespMsg := fun ms =>
  if ms.length ≤ 2
  then .ok ⟨some "Let me check", [⟨"call_1", "get_weather", "city Paris"⟩]⟩
  else .ok ⟨some " Sunny in Paris. ", []⟩

/-- Concrete weather tool outcome: a successful fetch. -/
def gwW : String → GWResult := fun _ => ⟨"20C clear", none⟩

/-- Concrete argument parse: every arguments payload names Paris. -/
def pcW : String → String := fun _ => "Paris"

theorem c2_round_trip_witness :
    reconstruct (chatCompletionWithTools epW gwW pcW [] "hi" (some "sys")).2
      = reconstruct []
        ++ Msg.plain "user" (Content.text "hi")
           :: (turnToolMessages gwW pcW
                 ⟨some "Let me check", [⟨"call_1", "get_weather", "city Paris"⟩]⟩
               ++ [Msg.plain "assistant" (Content.text (" Sunny in Paris. ").trim)]) :=
  (c2_round_trip epW gwW pcW [] "hi" (some "sys")).1
    ⟨some "Let me check", [⟨"call_1", "get_weather", "city Paris"⟩]⟩
    ⟨some " Sunny in Paris. ", []⟩ " Sunny in Paris. "
    (by rfl) (by simp) (by rfl) rfl

/-- C6 (claim as stated is false): with a failing first endpoint call, the
durable store afterwards is *not* the prior store plus only the
already-appended user row — the `except` handler additionally appends a
`system`-role error row (`self.db.insert_conversation("system", ...)`). -/
theorem c6_counterexample :
    (chatCompletionWithTools (fun _ => Except.error "boom") gwW pcW [] "hi" none).2
      ≠ [⟨"user", Content.text "hi"⟩] := by
  decide

/-- C6 (amended): a Model Endpoint failure on the first call of a turn
aborts the turn, is surfaced to the caller as the turn-level error string
`"Error making API call: <e>"`, and leaves the store equal to the store
before the call plus exactly two appended rows: the already-appended user
message and one `system`-role row recording the error.  No assistant or
tool rows are written for the failed call. -/
theorem c6_endpoint_failure (endpoint : List Msg → Except String RespMsg)
    (gw : String → GWResult) (parseCity : String → String)
    (store : List Entry) (userMsg : String) (sysMsg : Option String) (e : String)
    (h : endpoint (buildMessages store userMsg sysMsg) = Except.error e) :
    chatCompletionWithTools endpoint gw parseCity store userMsg sysMsg
      = (apiErrorMsg e,
         store ++ [⟨"user", Content.text userMsg⟩,
                   ⟨"system", Content.text ("Error: " ++ apiErrorMsg e)⟩]) := by
  simp only [chatCompletionWithTools, h]
  simp

theorem c6_endpoint_failure_witness :
    chatCompletionWithTools (fun _ => Except.error "boom") gwW pcW [] "hi" none
      = (apiErrorMsg "boom",
         [] ++ [⟨"user", Content.text "hi"⟩,
                ⟨"system", Content.text ("Error: " ++ apiErrorMsg "boom")⟩]) :=
  c6_endpoint_failure (fun _ => Except.error "boom") gwW pcW [] "hi" none "boom" rfl

/-! ### The durable store (`db_accessor.py`)

`DatabaseAccessor` over the `my_conversations` table
(src/persistence/db_accessor.py).  A row has the `SERIAL PRIMARY KEY id`,
`role`, `response` and `timestamp`; the table state also carries the serial
counter (which `DELETE` does not reset).  `insert_conversation` appends a
row with the next serial id and the caller-observed `datetime.now()`
timestamp (a parameter here); `get_conversation_history` (without `limit`)
returns all rows `ORDER BY timestamp ASC` — on a non-unique sort key SQL
promises only *some* timestamp-nondecreasing reordering, so the query is
specified relationally by `sqlOrderedByTimestamp` and the function below
is one compliant result; `get_conversation_count` is `COUNT(*)`;
`clear_conversation_history` is `DELETE FROM my_conversations`, returning
the row count it deleted. -/

structure Row where
  id : Nat
  role : String
  response : Content
  timestamp : Nat
deriving DecidableEq, Repr

structure DBState where
  nextId : Nat
  rows : List Row
deriving DecidableEq, Repr

/-- The empty table right after `_create_table_if_not_exists`; Postgres
`SERIAL` starts at 1. -/
def emptyDB : DBState := ⟨1, []⟩

/-- `insert_conversation`: append the row, return the new state together
with the `RETURNING id` value. -/
def insert_conversation (st : DBState) (role : String) (response : Content)
    (ts : Nat) : DBState × Nat :=
  (⟨st.nextId + 1, st.rows ++ [⟨st.nextId, role, response, ts⟩]⟩, st.nextId)

/-- What `SELECT ... ORDER BY timestamp ASC` promises: the result is some
reordering of the table's rows that is nondecreasing in the timestamp.  On
tied timestamps the engine guarantees no particular order, so the query is
modelled relationally: `sqlOrderedByTimestamp st out` holds exactly for
the row lists a compliant engine may return. -/
def sqlOrderedByTimestamp (st : DBState) (out : List Row) : Prop :=
  out.Perm st.rows ∧ out.Sorted (fun a b => a.timestamp ≤ b.timestamp)

/-- `get_conversation_history()` without a limit: one compliant result of
the `ORDER BY timestamp ASC` query (an executable witness implementation;
no theorem relies on its particular order between tied timestamps). -/
def get_conversation_history (st : DBState) : List Row :=
  List.insertionSort (fun a b => a.timestamp ≤ b.timestamp) st.rows

/-- `get_conversation_count`: `SELECT COUNT(*)`. -/
def get_conversation_count (st : DBState) : Nat := st.rows.length

/-- `clear_conversation_history`: delete every row, return the deleted
count (`cursor.rowcount`). -/
def clear_conversation_history (st : DBState) : DBState × Nat :=
  (⟨st.nextId, []⟩, st.rows.length)

/-- Table states reachable through the accessor's operations. -/
inductive DBReachable : DBState → Prop
  | init : DBReachable emptyDB
  | insert (st : DBState) (role : String) (response : Content) (ts : Nat) :
      DBReachable st → DBReachable (insert_conversation st role response ts).1
  | clear (st : DBState) :
      DBReachable st → DBReachable (clear_conversation_history st).1

lemma dbReachable_ids_bounded (st : DBState) (h : DBReachable st) :
    ∀ r ∈ st.rows, r.id < st.nextId := by
  induction h with
  | init => intro r hr; simp [emptyDB] at hr
  | insert st role response ts _ ih =>
    intro r hr
    simp only [insert_conversation, List.mem_append, List.mem_singleton] at hr
    rcases hr with hr | hr
    · exact Nat.lt_succ_of_lt (ih r hr)
    · subst hr; exact Nat.lt_succ_self _
  | clear st _ ih =>
    intro r hr
    simp [clear_conversation_history] at hr

instance rowTimestampTrans : IsTrans Row (fun a b => a.timestamp ≤ b.timestamp) :=
  ⟨fun _ _ _ => Nat.le_trans⟩

instance rowTimestampTotal : IsTotal Row (fun a b => a.timestamp ≤ b.timestamp) :=
  ⟨fun a b => Nat.le_total a.timestamp b.timestamp⟩

lemma get_conversation_history_spec (st : DBState) :
    sqlOrderedByTimestamp st (get_conversation_history st) :=
  ⟨List.perm_insertionSort _ _, List.sorted_insertionSort _ _⟩

instance rowTimestampLtTrans : IsTrans Row (fun a b => a.timestamp < b.timestamp) :=
  ⟨fun _ _ _ => Nat.lt_trans⟩

instance rowTimestampLtAntisymm : IsAntisymm Row (fun a b => a.timestamp < b.timestamp) :=
  ⟨fun a b h1 h2 => absurd h2 (Nat.lt_asymm h1)⟩

instance rowTimestampLtIrrefl : IsIrrefl Row (fun a b => a.timestamp < b.timestamp) :=
  ⟨fun a => Nat.lt_irrefl a.timestamp⟩

/-- A list with strictly increasing timestamps is recovered uniquely from
any timestamp-sorted permutation of itself: with no ties there is exactly
one compliant ordering. -/
lemma sorted_perm_eq_of_strict (l out : List Row)
    (hl : (l.map Row.timestamp).Chain' (· < ·))
    (hp : out.Perm l)
    (hs : out.Sorted (fun a b => a.timestamp ≤ b.timestamp)) : out = l := by
  have hlsorted : l.Sorted (fun a b : Row => a.timestamp < b.timestamp) := by
    rw [List.Sorted, ← List.chain'_iff_pairwise]
    exact (List.chain'_map Row.timestamp).mp hl
  have hmapsorted : (l.map Row.timestamp).Sorted (· < ·) := by
    rw [List.Sorted, ← List.chain'_iff_pairwise]
    exact hl
  have hnodupts : (out.map Row.timestamp).Nodup :=
    ((hp.map Row.timestamp).nodup_iff).mpr hmapsorted.nodup
  have hpairne : out.Pairwise (fun a b : Row => a.timestamp ≠ b.timestamp) :=
    List.pairwise_map.mp hnodupts
  have houtsorted : out.Sorted (fun a b : Row => a.timestamp < b.timestamp) :=
    (hs.and hpairne).imp (fun h => Nat.lt_of_le_of_ne h.1 h.2)
  exact List.eq_of_perm_of_sorted hp houtsorted hlsorted

/-- C7 (amended): store-order preservation.  In every reachable table
state the serial ids along the rows, in append order, are strictly
increasing; and provided the `datetime.now()` timestamps recorded at
insertion are strictly increasing in append order, *every* result the
`ORDER BY timestamp ASC` query may return — in particular the one
`get_conversation_history` computes — is the row list exactly in append
order, consistent with the strictly increasing ids.  (On tied timestamps
the engine guarantees no order between the tied rows; see the
counterexample.) -/
theorem c7_store_order (st : DBState) (h : DBReachable st) :
    (st.rows.map Row.id).Chain' (· < ·) ∧
      ((st.rows.map Row.timestamp).Chain' (· < ·) →
        (∀ out : List Row, sqlOrderedByTimestamp st out → out = st.rows) ∧
          get_conversation_history st = st.rows) := by
  constructor
  · induction h with
    | init => simp [emptyDB]
    | insert st role response ts hst ih =>
      simp only [insert_conversation, List.map_append, List.map_cons, List.map_nil]
      rw [List.chain'_append]
      refine ⟨ih, by simp, ?_⟩
      intro x hx y hy
      simp at hy
      subst hy
      rcases List.getLast?_eq_some_iff.mp hx with ⟨l', hl'⟩
      have hxmem : x ∈ st.rows.map Row.id := by rw [hl']; simp
      rcases List.mem_map.mp hxmem with ⟨r, hr, hrx⟩
      subst hrx
      exact dbReachable_ids_bounded st hst r hr
    | clear st hst ih => simp [clear_conversation_history]
  · intro hts
    have hall : ∀ out : List Row, sqlOrderedByTimestamp st out → out = st.rows :=
      fun out hout => sorted_perm_eq_of_strict st.rows out hts hout.1 hout.2
    exact ⟨hall, hall _ (get_conversation_history_spec st)⟩

/-- C7 (claim as stated is false): on a reachable store whose two rows
carry equal timestamps, the `ORDER BY timestamp ASC` contract admits a
result in the reverse of append order (serial id 2 before id 1), so the
list operation is not guaranteed to return entries ordered consistently
with the strictly increasing sequence ids. -/
theorem c7_counterexample :
    DBReachable
        (insert_conversation
          (insert_conversation emptyDB "user" (Content.text "a") 5).1
          "assistant" (Content.text "b") 5).1 ∧
    sqlOrderedByTimestamp
        (insert_conversation
          (insert_conversation emptyDB "user" (Content.text "a") 5).1
          "assistant" (Content.text "b") 5).1
        [⟨2, "assistant", Content.text "b", 5⟩, ⟨1, "user", Content.text "a", 5⟩] ∧
    [⟨2, "assistant", Content.text "b", 5⟩, ⟨1, "user", Content.text "a", 5⟩]
      ≠ ((insert_conversation
          (insert_conversation emptyDB "user" (Content.text "a") 5).1
          "assistant" (Content.text "b") 5).1).rows := by
  refine ⟨DBReachable.insert _ _ _ _ (DBReachable.insert _ _ _ _ DBReachable.init),
    ?_, by decide⟩
  unfold sqlOrderedByTimestamp
  exact ⟨by decide, by decide⟩

theorem c7_store_order_witness :
    ((((insert_conversation
          (insert_conversation emptyDB "user" (Content.text "hi") 5).1
          "assistant" (Content.text "hello") 7).1).rows.map Row.id).Chain' (· < ·)) ∧
      get_conversation_history
          (insert_conversation
            (insert_conversation emptyDB "user" (Content.text "hi") 5).1
            "assistant" (Content.text "hello") 7).1
        = ((insert_conversation
            (insert_conversation emptyDB "user" (Content.text "hi") 5).1
            "assistant" (Content.text "hello") 7).1).rows := by
  have h := c7_store_order
    (insert_conversation
      (insert_conversation emptyDB "user" (Content.text "hi") 5).1
      "assistant" (Content.text "hello") 7).1
    (DBReachable.insert _ _ _ _ (DBReachable.insert _ _ _ _ DBReachable.init))
  exact ⟨h.1, (h.2 (by simp [insert_conversation, emptyDB, List.chain'_cons])).2⟩

/-- C9: idempotent clear.  After `clear_conversation_history`, listing the
history returns the empty sequence and the count is 0; the clear operation
itself returns the number of rows it deleted. -/
theorem c9_idempotent_clear (st : DBState) :
    get_conversation_history (clear_conversation_history st).1 = [] ∧
      get_conversation_count (clear_conversation_history st).1 = 0 ∧
      (clear_conversation_history st).2 = st.rows.length := by
  refine ⟨?_, rfl, rfl⟩
  simp [get_conversation_history, clear_conversation_history]

/-! ### The movie recommender agent (`movie_recommender_agent.py`)

In-memory data and the pure tool implementations.  Python `str.strip()` on
input genres is modelled by `pyStrip`; Python `sorted` on a `set` of
strings yields the ascending duplicate-free list, modelled as an insertion
sort over the deduplicated collected list (both denote the unique
`≤`-sorted duplicate-free list with the same members). -/

structure Movie where
  id : Int
  name : String
  genres : List String
deriving DecidableEq, Repr

/-- `self.movies`: the in-memory catalog `(movie_id, movie_name, [genres])`. -/
def movies : List Movie :=
  [⟨1, "Interstellar", ["Sci-Fi", "Adventure", "Drama"]⟩,
   ⟨2, "The Irishman", ["Crime", "Drama"]⟩,
   ⟨3, "Blade Runner 2049", ["Sci-Fi", "Thriller"]⟩,
   ⟨4, "La La Land", ["Romance", "Musical", "Drama"]⟩,
   ⟨5, "Arrival", ["Sci-Fi", "Drama"]⟩,
   ⟨6, "Mad Max: Fury Road", ["Action", "Adventure", "Sci-Fi"]⟩,
   ⟨7, "Whiplash", ["Drama", "Music"]⟩,
   ⟨8, "Inception", ["Sci-Fi", "Action", "Thriller"]⟩]

/-- `self.past_reviews`: `(user_id, movie_id, review)`. -/
def past_reviews : List (Int × Int × String) :=
  [(101, 1, "Loved it, great sci-fi!"),
   (101, 2, "Okayish, too slow"),
   (101, 3, "Amazing visuals, would watch again"),
   (202, 2, "Fantastic drama"),
   (202, 4, "Not my type")]

/-- `fetch_past_reviews(user_id)`: the `(movie_id, review)` pairs of this
user, in stored order. -/
def fetch_past_reviews (user_id : Int) : List (Int × String) :=
  past_reviews.filterMap
    (fun r => if r.1 = user_id then some (r.2.1, r.2.2) else none)

/-- `get_genre(movie_ids)`: collect the genres of every catalog movie whose
id is a member of `movie_ids` into a set, then return them sorted
ascending. -/
def get_genre (movie_ids : List Int) : List String :=
  List.insertionSort (· ≤ ·)
    (((movies.filter (fun m => decide (m.id ∈ movie_ids))).flatMap Movie.genres).dedup)

/-- Python `str.strip()`: drop leading and trailing whitespace characters. -/
def pyStrip (s : String) : String :=
  ((s.data.dropWhile Char.isWhitespace).reverse.dropWhile Char.isWhitespace).reverse.asString

/-- `get_movies(genres, past_ids)`: the names, in catalog order, of movies
not in `past_ids` having at least one genre in the set of
whitespace-stripped input genres. -/
def get_movies (genres : List String) (past_ids : List Int) : List String :=
  (movies.filter (fun m =>
      !decide (m.id ∈ past_ids)
        && m.genres.any (fun g => decide (g ∈ genres.map pyStrip)))).map Movie.name

/-- `send_response(response)`: returns its argument unchanged. -/
def send_response (response : String) : String := response

/-- C8 (claim as stated is false): `get_movies` strips whitespace from the
input genres before matching, so for the input genre `" Drama"` (which
literally intersects no catalog movie's genre list) it still returns every
Drama movie: the returned list contains `"Interstellar"` even though no
catalog movie's genre list meets `[" Drama"]`. -/
theorem c8_counterexample :
    "Interstellar" ∈ get_movies [" Drama"] [] ∧
      ∀ m ∈ movies, ¬∃ g ∈ m.genres, g ∈ ([" Drama"] : List String) := by
  constructor
  · decide
  · decide

/-- C8 (amended): for every genres list and pastIds list, `get_movies`
returns exactly the names of catalog movies whose genre list intersects
the *whitespace-stripped* provided genres and whose id is not in pastIds;
in particular the returned names exclude every movie whose id appears in
pastIds. -/
theorem c8_get_movies_spec (genres : List String) (past_ids : List Int) :
    (∀ n : String,
      n ∈ get_movies genres past_ids ↔
        ∃ m ∈ movies, m.name = n ∧ m.id ∉ past_ids ∧
          ∃ g ∈ m.genres, g ∈ genres.map pyStrip) ∧
    (∀ m ∈ movies, m.id ∈ past_ids → m.name ∉ get_movies genres past_ids) := by
  have hmem : ∀ n : String,
      n ∈ get_movies genres past_ids ↔
        ∃ m ∈ movies, m.name = n ∧ m.id ∉ past_ids ∧
          ∃ g ∈ m.genres, g ∈ genres.map pyStrip := by
    intro n
    simp only [get_movies, List.mem_map, List.mem_filter, Bool.and_eq_true,
      Bool.not_eq_true', decide_eq_false_iff_not, List.any_eq_true,
      decide_eq_true_eq]
    constructor
    · rintro ⟨m, ⟨hm, hnot, g, hg, hgin⟩, hname⟩
      exact ⟨m, hm, hname, hnot, g, hg, hgin⟩
    · rintro ⟨m, hm, hname, hnot, g, hg, hgin⟩
      exact ⟨m, ⟨hm, hnot, g, hg, hgin⟩, hname⟩
  refine ⟨hmem, ?_⟩
  intro m hm hpast hcontra
  rcases (hmem m.name).mp hcontra with ⟨m', hm', hname, hnot, _⟩
  have : m' = m := by
    have hnames : ∀ a ∈ movies, ∀ b ∈ movies, a.name = b.name → a = b := by decide
    exact hnames m' hm' m hm hname
  subst this
  exact hnot hpast

/-- C10: `get_genre` returns the duplicate-free union of the genre lists of
catalog movies whose id is in the input, sorted ascending; ids absent from
the catalog contribute nothing, and the result depends only on membership
in the input id list (so it is independent of the order and multiplicity of
the input ids). -/
theorem c10_get_genre_spec (movie_ids : List Int) :
    (get_genre movie_ids).Sorted (· ≤ ·) ∧
      (get_genre movie_ids).Nodup ∧
      (∀ g : String,
        g ∈ get_genre movie_ids ↔
          ∃ m ∈ movies, m.id ∈ movie_ids ∧ g ∈ m.genres) ∧
      (∀ ids2 : List Int, (∀ x : Int, x ∈ movie_ids ↔ x ∈ ids2) →
        get_genre movie_ids = get_genre ids2) := by
  refine ⟨List.sorted_insertionSort _ _, ?_, ?_, ?_⟩
  · exact ((List.perm_insertionSort _ _).nodup_iff).mpr (List.nodup_dedup _)
  · intro g
    simp only [get_genre]
    rw [List.mem_insertionSort, List.mem_dedup]
    simp only [List.mem_flatMap, List.mem_filter, decide_eq_true_eq]
    constructor
    · rintro ⟨m, ⟨hm, hid⟩, hg⟩
      exact ⟨m, hm, hid, hg⟩
    · rintro ⟨m, hm, hid, hg⟩
      exact ⟨m, ⟨hm, hid⟩, hg⟩
  · intro ids2 hiff
    unfold get_genre
    have : movies.filter (fun m => decide (m.id ∈ movie_ids))
        = movies.filter (fun m => decide (m.id ∈ ids2)) := by
      apply List.filter_congr
      intro m _
      simp [hiff m.id]
    rw [this]

theorem c10_get_genre_witness :
    (get_genre [1, 2]).Sorted (· ≤ ·) ∧ get_genre [1, 2] = get_genre [2, 1, 1] := by
  refine ⟨(c10_get_genre_spec [1, 2]).1, ?_⟩
  refine (c10_get_genre_spec [1, 2]).2.2.2 [2, 1, 1] ?_
  intro x
  constructor <;> (intro hx; simp at hx ⊢; tauto)

/-! ### The multi-hop tool-dispatch loop (`run`, lines 224–343)

The per-batch `for tool_call in all_tool_calls` loop.  Conventions:

* `args = json.loads(tool_call.function.arguments)` is modelled as an
  already-parsed record of the keys the dispatcher reads (`AgArgs`); a
  missing key is `none` (`dict.get` returning `None`);
* `json.dumps` of a tool result is abstracted as a serialization oracle
  (`SerOracle`) — no claim depends on the rendered text;
* Python exceptions abort the turn and are modelled as `Except.error`:
  `typeError` for `int(None)` when `user_id` is absent, and `nameError`
  for the unknown-tool branch, which appends its error payload to
  `messages` and then evaluates the *undefined* name
  `tool_results_for_history` (line 321) — a `NameError` that kills the
  turn, so the partial appends are never observed. -/

/-- The argument keys read by the dispatcher, as parsed from the tool
call's JSON `arguments`. -/
structure AgArgs where
  user_id : Option Int
  movie_ids : Option (List Int)
  genres : Option (List String)
  pastIds : Option (List Int)
  response : Option String
deriving DecidableEq, Repr

/-- A tool call issued by the Model Endpoint for this hop. -/
structure AgToolCall where
  id : String
  name : String
  args : AgArgs
deriving DecidableEq, Repr

/-- A message of the agent's `messages` / `conversation_history` lists. -/
inductive AgMsg where
  | plain (role : String) (content : String)
  | calls (content : String) (tool_calls : List AgToolCall)
  | tool (tool_call_id : String) (content : String)
deriving DecidableEq, Repr

/-- Serialization oracle standing for `json.dumps` on tool results. -/
structure SerOracle where
  dumpPairs : List (Int × String) → String
  dumpStrs : List String → String

/-- A Python exception escaping the dispatch loop (uncaught in `run`). -/
inductive AgentError where
  | nameError
  | typeError
deriving DecidableEq, Repr

/-- Effect of the processed prefix of one tool-call batch: the entries
appended to `messages`, the entries appended to
`self.conversation_history`, and the final answer if the loop broke at a
`sendResponse` call. -/
structure BatchStep where
  msgs : List AgMsg
  hist : List AgMsg
  final : Option String
deriving DecidableEq, Repr

/-- One iteration of the batch loop (lines 238–321): record the per-call
assistant entry in the history, then dispatch on the function name.
`fetch_past_reviews` / `getGenre` / `getMovies` append one tool message
with the serialized result to both lists; `sendResponse` appends the
matching tool message, prints its argument as the final answer and also
records it as a plain assistant history entry; an unrecognized name
reaches the undefined `tool_results_for_history` and raises. -/
def dispatchCall (ser : SerOracle) (respContent : String) (tc : AgToolCall) :
    Except AgentError BatchStep :=
  let callEntry := AgMsg.calls respContent [tc]
  if tc.name = "fetch_past_reviews" then
    match tc.args.user_id with
    | none => .error .typeError
    | some uid =>
      let out := ser.dumpPairs (fetch_past_reviews uid)
      .ok ⟨[AgMsg.tool tc.id out], [callEntry, AgMsg.tool tc.id out], none⟩
  else if tc.name = "getGenre" then
    let out := ser.dumpStrs (get_genre (tc.args.movie_ids.getD []))
    .ok ⟨[AgMsg.tool tc.id out], [callEntry, AgMsg.tool tc.id out], none⟩
  else if tc.name = "getMovies" then
    let out := ser.dumpStrs (get_movies (tc.args.genres.getD []) (tc.args.pastIds.getD []))
    .ok ⟨[AgMsg.tool tc.id out], [callEntry, AgMsg.tool tc.id out], none⟩
  else if tc.name = "sendResponse" then
    let t := tc.args.response.getD ""
    .ok ⟨[AgMsg.tool tc.id t],
         [callEntry, AgMsg.tool tc.id t, AgMsg.plain "assistant" t], some t⟩
  else .error .nameError

/-- The batch loop: dispatch the calls in order; a `sendResponse` breaks
out of the loop (remaining calls are not processed); an exception
propagates. -/
def processBatch (ser : SerOracle) (respContent : String) :
    List AgToolCall → Except AgentError BatchStep
  | [] => .ok ⟨[], [], none⟩
  | tc :: rest =>
    match dispatchCall ser respContent tc with
    | .error e => .error e
    | .ok step =>
      match step.final with
      | some _ => .ok step
      | none =>
        match processBatch ser respContent rest with
        | .error e => .error e
        | .ok step2 => .ok ⟨step.msgs ++ step2.msgs, step.hist ++ step2.hist, step2.final⟩

/-- Line 324: after the loop, the hop loop breaks — ending the user turn
with no further Model Endpoint call — exactly when some call of the batch
named `sendResponse`. -/
def hopEndsTurn (batch : List AgToolCall) : Bool :=
  batch.any (fun tc => tc.name == "sendResponse")

/-- A tool call the dispatcher executes without raising and without
terminating the loop: a registered non-terminal name, with `user_id`
present when the tool is `fetch_past_reviews`. -/
def execOk (tc : AgToolCall) : Prop :=
  (tc.name = "fetch_past_reviews" ∧ tc.args.user_id.isSome = true)
    ∨ tc.name = "getGenre" ∨ tc.name = "getMovies"

lemma processBatch_stops (ser : SerOracle) (respContent : String) :
    ∀ (pre : List AgToolCall), (∀ tc ∈ pre, execOk tc) →
    ∀ (sr : AgToolCall) (post : List AgToolCall) (r : String),
      sr.name = "sendResponse" → sr.args.response = some r →
      ∃ step : BatchStep,
        processBatch ser respContent (pre ++ sr :: post) = .ok step ∧
        processBatch ser respContent (pre ++ [sr]) = .ok step ∧
        step.final = some r ∧
        step.hist.getLast? = some (AgMsg.plain "assistant" r) := by
  intro pre
  induction pre with
  | nil =>
    intro _ sr post r hname hresp
    refine ⟨⟨[AgMsg.tool sr.id r],
             [AgMsg.calls respContent [sr], AgMsg.tool sr.id r,
              AgMsg.plain "assistant" r], some r⟩, ?_, ?_, rfl, rfl⟩
    · simp [processBatch, dispatchCall, hname, hresp]
    · simp [processBatch, dispatchCall, hname, hresp]
  | cons tc pre ih =>
    intro hpre sr post r hname hresp
    obtain ⟨step2, h1, h2, h3, h4⟩ :=
      ih (fun c hc => hpre c (by simp [hc])) sr post r hname hresp
    have hexec := hpre tc (by simp)
    rcases hexec with ⟨hn, hu⟩ | hn | hn
    · cases huid : tc.args.user_id with
      | none => rw [huid] at hu; simp at hu
      | some uid =>
        refine ⟨⟨[AgMsg.tool tc.id (ser.dumpPairs (fetch_past_reviews uid))] ++ step2.msgs,
                 [AgMsg.calls respContent [tc],
                  AgMsg.tool tc.id (ser.dumpPairs (fetch_past_reviews uid))] ++ step2.hist,
                 step2.final⟩, ?_, ?_, by simpa using h3, ?_⟩
        · simp [processBatch, dispatchCall, hn, huid, h1]
        · simp [processBatch, dispatchCall, hn, huid, h2]
        · simp only []
          exact Option.mem_def.mp
            (List.mem_getLast?_append_of_mem_getLast? (Option.mem_def.mpr h4))
    · refine ⟨⟨[AgMsg.tool tc.id (ser.dumpStrs (get_genre (tc.args.movie_ids.getD [])))] ++ step2.msgs,
               [AgMsg.calls respContent [tc],
                AgMsg.tool tc.id (ser.dumpStrs (get_genre (tc.args.movie_ids.getD [])))] ++ step2.hist,
               step2.final⟩, ?_, ?_, by simpa using h3, ?_⟩
      · have hn1 : ¬tc.name = "fetch_past_reviews" := by rw [hn]; decide
        simp [processBatch, dispatchCall, hn, hn1, h1]
      · have hn1 : ¬tc.name = "fetch_past_reviews" := by rw [hn]; decide
        simp [processBatch, dispatchCall, hn, hn1, h2]
      · simp only []
        exact Option.mem_def.mp
          (List.mem_getLast?_append_of_mem_getLast? (Option.mem_def.mpr h4))
    · refine ⟨⟨[AgMsg.tool tc.id (ser.dumpStrs (get_movies (tc.args.genres.getD []) (tc.args.pastIds.getD [])))] ++ step2.msgs,
               [AgMsg.calls respContent [tc],
                AgMsg.tool tc.id (ser.dumpStrs (get_movies (tc.args.genres.getD []) (tc.args.pastIds.getD [])))] ++ step2.hist,
               step2.final⟩, ?_, ?_, by simpa using h3, ?_⟩
      · have hn1 : ¬tc.name = "fetch_past_reviews" := by rw [hn]; decide
        have hn2 : ¬tc.name = "getGenre" := by rw [hn]; decide
        simp [processBatch, dispatchCall, hn, hn1, hn2, h1]
      · have hn1 : ¬tc.name = "fetch_past_reviews" := by rw [hn]; decide
        have hn2 : ¬tc.name = "getGenre" := by rw [hn]; decide
        simp [processBatch, dispatchCall, hn, hn1, hn2, h2]
      · simp only []
        exact Option.mem_def.mp
          (List.mem_getLast?_append_of_mem_getLast? (Option.mem_def.mpr h4))

/-- C3 (amended): terminal `sendResponse`.  For a hop whose batch is an
executable prefix (registered non-terminal tools, `user_id` present for
`fetch_past_reviews`) followed by a `sendResponse` call (argument `r`) and
arbitrary further calls, the dispatch loop stops at the `sendResponse`
call — the result does not depend on the remaining calls of the batch —,
the final answer is exactly `r` (forwarded verbatim, the history ends with
the assistant answer `r`), and the hop loop ends the turn with no further
Model Endpoint call.  The executable-prefix hypothesis is forced by the
counterexample: a non-executable call before `sendResponse` raises and the
terminal call is never reached. -/
theorem c3_send_response_terminates (ser : SerOracle) (respContent : String)
    (pre post : List AgToolCall) (sr : AgToolCall) (r : String)
    (hpre : ∀ tc ∈ pre, execOk tc)
    (hname : sr.name = "sendResponse")
    (hresp : sr.args.response = some r) :
    processBatch ser respContent (pre ++ sr :: post)
        = processBatch ser respContent (pre ++ [sr])
      ∧ (∃ step : BatchStep,
          processBatch ser respContent (pre ++ sr :: post) = .ok step
            ∧ step.final = some r
            ∧ step.hist.getLast? = some (AgMsg.plain "assistant" r))
      ∧ hopEndsTurn (pre ++ sr :: post) = true := by
  obtain ⟨step, h1, h2, h3, h4⟩ :=
    processBatch_stops ser respContent pre hpre sr post r hname hresp
  refine ⟨h1.trans h2.symm, ⟨step, h1, h3, h4⟩, ?_⟩
  simp [hopEndsTurn]
  exact Or.inr (Or.inl hname)

/-- Concrete serialization oracle for witnesses. -/
def serW : SerOracle := ⟨fun _ => "pairs", fun _ => "strs"⟩

/-- Arguments record with every key absent. -/
def noArgs : AgArgs := ⟨none, none, none, none, none⟩

theorem c3_send_response_terminates_witness :
    processBatch serW "c"
        ([⟨"a", "getGenre", ⟨none, some [1], none, none, none⟩⟩]
          ++ (⟨"b", "sendResponse", ⟨none, none, none, none, some "Watch Arrival!"⟩⟩ : AgToolCall)
            :: [⟨"d", "getMovies", noArgs⟩])
        = processBatch serW "c"
            ([⟨"a", "getGenre", ⟨none, some [1], none, none, none⟩⟩]
              ++ [⟨"b", "sendResponse", ⟨none, none, none, none, some "Watch Arrival!"⟩⟩])
      ∧ (∃ step : BatchStep,
          processBatch serW "c"
              ([⟨"a", "getGenre", ⟨none, some [1], none, none, none⟩⟩]
                ++ (⟨"b", "sendResponse", ⟨none, none, none, none, some "Watch Arrival!"⟩⟩ : AgToolCall)
                  :: [⟨"d", "getMovies", noArgs⟩]) = .ok step
            ∧ step.final = some "Watch Arrival!"
            ∧ step.hist.getLast? = some (AgMsg.plain "assistant" "Watch Arrival!"))
      ∧ hopEndsTurn
          ([⟨"a", "getGenre", ⟨none, some [1], none, none, none⟩⟩]
            ++ (⟨"b", "sendResponse", ⟨none, none, none, none, some "Watch Arrival!"⟩⟩ : AgToolCall)
              :: [⟨"d", "getMovies", noArgs⟩]) = true :=
  c3_send_response_terminates serW "c"
    [⟨"a", "getGenre", ⟨none, some [1], none, none, none⟩⟩]
    [⟨"d", "getMovies", noArgs⟩]
    ⟨"b", "sendResponse", ⟨none, none, none, none, some "Watch Arrival!"⟩⟩
    "Watch Arrival!"
    (by intro tc htc; simp at htc; subst htc; exact Or.inr (Or.inl rfl))
    rfl rfl

/-- C3 (claim as stated is false): a batch that contains the terminal
`sendResponse` call but has a non-executable call before it never reaches
the terminal call, so nothing is emitted and the turn dies instead of
ending normally: an unregistered tool name raises the `NameError` of the
undefined `tool_results_for_history`, and a `fetch_past_reviews` call with
no `user_id` raises the `TypeError` of `int(None)` — in both cases before
the loop reaches `sendResponse`. -/
theorem c3_counterexample :
    (⟨"y", "sendResponse", ⟨none, none, none, none, some "hello"⟩⟩ : AgToolCall).name
        = "sendResponse" ∧
      processBatch serW ""
          [⟨"x", "fooTool", noArgs⟩,
           ⟨"y", "sendResponse", ⟨none, none, none, none, some "hello"⟩⟩]
        = .error AgentError.nameError ∧
      processBatch serW ""
          [⟨"x", "fetch_past_reviews", noArgs⟩,
           ⟨"y", "sendResponse", ⟨none, none, none, none, some "hello"⟩⟩]
        = .error AgentError.typeError :=
  ⟨rfl, rfl, rfl⟩

/-- C4: a tool call with an unregistered name is *not* converted into a
non-fatal tool-result error payload: the unknown-tool branch evaluates the
undefined name `tool_results_for_history` (line 321 of
movie_recommender_agent.py), so dispatching such a call raises a
`NameError` that aborts the orchestration loop instead of continuing to
the next hop. -/
theorem c4_unknown_tool_raises :
    processBatch serW "" [⟨"call_9", "fooTool", noArgs⟩]
      = .error AgentError.nameError := by
  rfl
